import Mathlib

/-!
Verification of the stargazer-collection and CSV-merge pipeline (shoot.py).

The embedding models:
* decoded JSON values (`Json`), Python truthiness (`truthy`), Python
  subscripting `item[k]` (`getKey`), Python iteration `for item in j`
  (`iterElems`), raising paths as `Except Unit`;
* the pagination loop `get_stargazers` as a fuel-indexed recursion over an
  abstract fetch function (URLs are an opaque type `U`; the loop never
  inspects them), returning `StarResult.ok` on a `break`/`return`,
  `StarResult.exn` when the Python code would raise, and
  `StarResult.fuelOut` when the fuel runs out before the loop exits;
* the profile-enrichment decision of `get_user_details` plus the
  `if user_details:` guard of the enrichment loop (`enrichStep`);
* the merge-and-rewrite step of `update_csv`: reading the existing file
  builds a Python dict keyed by login (an insertion-ordered association
  list, last write wins: `insertOrReplace`), new rows are folded in the
  same way, and the values are sorted by login and written back
  (`update_csv_rows`, `update_csv_file`).
-/

/-- Decoded JSON values, as produced by `response.json()`. -/
inductive Json : Type where
  | null : Json
  | bool (b : Bool) : Json
  | num (n : Int) : Json
  | str (s : String) : Json
  | arr (elems : List Json) : Json
  | obj (fields : List (String × Json)) : Json

/-- Python truthiness of a decoded JSON value (`if not json_response`). -/
def truthy : Json → Bool
  | .null => false
  | .bool b => b
  | .num n => n != 0
  | .str s => s != ""
  | .arr elems => !elems.isEmpty
  | .obj fields => !fields.isEmpty

/-- Python subscripting `item[k]` on a decoded JSON value: a key lookup on a
dict (KeyError when absent), a TypeError (modelled as `.error`) on anything
that is not a dict. -/
def getKey : Json → String → Except Unit Json
  | .obj fields, k =>
    match List.lookup k fields with
    | some v => .ok v
    | none => .error ()
  | _, _ => .error ()

/-- Python iteration `for item in j`: a list yields its elements, a dict its
keys, a string its characters (as one-character strings); anything else is a
TypeError (modelled as `.error`). -/
def iterElems : Json → Except Unit (List Json)
  | .arr elems => .ok elems
  | .obj fields => .ok (fields.map (fun kv => Json.str kv.1))
  | .str s => .ok (s.data.map (fun c => Json.str (String.singleton c)))
  | _ => .error ()

/-- An HTTP response as the pipeline observes it: the status code, the decoded
JSON body (`none` when the body is not decodable, so that `response.json()`
raises), and the parsed `response.links` next-page URL. URLs are opaque
values of a type `U`. -/
structure Response (U : Type) : Type where
  status_code : Nat
  body : Option Json
  links_next : Option U

/-- Result of a run of the pagination loop: a normal return carrying the
collected `(user, starred_at)` pairs, an uncaught Python exception, or fuel
exhaustion (the loop was still running after the given number of
iterations). -/
inductive StarResult : Type where
  | ok (stargazers : List (Json × Json)) : StarResult
  | exn : StarResult
  | fuelOut : StarResult

/-- The body of the `for item in json_response` loop in `get_stargazers`:
evaluate `item["user"]` and `item["starred_at"]` for each item (propagating a
raise) and append the pair. -/
def processItems : List Json → List (Json × Json) → Except Unit (List (Json × Json))
  | [], stargazers => .ok stargazers
  | item :: rest, stargazers =>
    match getKey item "user" with
    | .error e => .error e
    | .ok u =>
      match getKey item "starred_at" with
      | .error e => .error e
      | .ok s => processItems rest (stargazers ++ [(u, s)])

/-- The pagination loop of `get_stargazers` (shoot.py lines 39-63), indexed by
fuel: fetch the current URL; a non-200 status breaks out of the loop; an
undecodable body raises; a falsy decoded body breaks; otherwise iterate the
body appending `(item["user"], item["starred_at"])` pairs; continue at the
`next` link when present, else break. The function returns the accumulated
list on every `break`. -/
def get_stargazers {U : Type} (fetch : U → Response U) : Nat → U → List (Json × Json) → StarResult
  | 0, _, _ => .fuelOut
  | fuel + 1, api_url, stargazers =>
    let response := fetch api_url
    if response.status_code ≠ 200 then
      .ok stargazers
    else
      match response.body with
      | none => .exn
      | some json_response =>
        if truthy json_response = false then
          .ok stargazers
        else
          match iterElems json_response with
          | .error _ => .exn
          | .ok items =>
            match processItems items stargazers with
            | .error _ => .exn
            | .ok acc =>
              match response.links_next with
              | none => .ok acc
              | some url => get_stargazers fetch fuel url acc

/-- The result of `get_user_details` (shoot.py lines 65-71):
`response.json() if response.status_code == 200 else None`. A 200 response
with an undecodable body raises. -/
def get_user_details {U : Type} (response : Response U) : Except Unit (Option Json) :=
  if response.status_code = 200 then
    match response.body with
    | some j => .ok (some j)
    | none => .error ()
  else
    .ok none

/-- Python dict `.get(k)`: the value at `k`, defaulting to None; an
AttributeError (modelled as `.error`) when the receiver is not a dict. -/
def dictGet (j : Json) (k : String) : Except Unit Json :=
  match j with
  | .obj fields => .ok ((List.lookup k fields).getD Json.null)
  | _ => .error ()

/-- A row of `new_data` as built in the enrichment loop of `update_csv`
(shoot.py lines 89-107), with field values as decoded JSON. -/
structure RowJson : Type where
  starred_at : Json
  id : Json
  login : Json
  name : Json
  company : Json
  location : Json
  email : Json
  bio : Json
  twitter_username : Json
  followers_count : Json
  following_count : Json
  public_repos : Json
  public_gists : Json
  blog : Json
  hireable : Json
  created_at : Json
  updated_at : Json

/-- The dict literal appended to `new_data` (shoot.py lines 89-107), built
from `star_data["starred_at"]` and the `.get` calls on `user_details`. -/
def buildRow (starred_at : Json) (user_details : Json) : Except Unit RowJson := do
  let idv ← dictGet user_details "id"
  let loginv ← dictGet user_details "login"
  let namev ← dictGet user_details "name"
  let companyv ← dictGet user_details "company"
  let locationv ← dictGet user_details "location"
  let emailv ← dictGet user_details "email"
  let biov ← dictGet user_details "bio"
  let twitterv ← dictGet user_details "twitter_username"
  let followersv ← dictGet user_details "followers"
  let followingv ← dictGet user_details "following"
  let reposv ← dictGet user_details "public_repos"
  let gistsv ← dictGet user_details "public_gists"
  let blogv ← dictGet user_details "blog"
  let hireablev ← dictGet user_details "hireable"
  let createdv ← dictGet user_details "created_at"
  let updatedv ← dictGet user_details "updated_at"
  pure {
    starred_at := starred_at, id := idv, login := loginv, name := namev,
    company := companyv, location := locationv, email := emailv, bio := biov,
    twitter_username := twitterv, followers_count := followersv,
    following_count := followingv, public_repos := reposv,
    public_gists := gistsv, blog := blogv, hireable := hireablev,
    created_at := createdv, updated_at := updatedv }

/-- One pass of the enrichment loop body (shoot.py lines 87-108) for a star
record whose login was already validated: fetch the profile, and append a row
to `new_data` only when `user_details` is truthy (`if user_details:`). -/
def enrichStep {U : Type} (starred_at : Json) (response : Response U)
    (new_data : List RowJson) : Except Unit (List RowJson) :=
  match get_user_details response with
  | .error e => .error e
  | .ok user_details =>
    match user_details with
    | none => .ok new_data
    | some ud =>
      if truthy ud then
        match buildRow starred_at ud with
        | .error e => .error e
        | .ok row => .ok (new_data ++ [row])
      else
        .ok new_data

/-- A persisted CSV data row: the fixed 17 fields, all strings (the CSV layer
reads and writes strings). -/
structure Row : Type where
  starred_at : String
  id : String
  login : String
  name : String
  company : String
  location : String
  email : String
  bio : String
  twitter_username : String
  followers_count : String
  following_count : String
  public_repos : String
  public_gists : String
  blog : String
  hireable : String
  created_at : String
  updated_at : String
deriving DecidableEq

/-- Keys of the modelled dict: the logins, in order. -/
def keys (m : List Row) : List String := m.map Row.login

/-- Insertion of `existing_data[r.login] = r` into a Python dict modelled as
an insertion-ordered association list: an existing key keeps its position and
gets the new value, a fresh key is appended at the end. -/
def insertOrReplace (m : List Row) (r : Row) : List Row :=
  if r.login ∈ keys m then
    m.map (fun x => if x.login = r.login then r else x)
  else
    m ++ [r]

/-- The sort `combined_data.sort(key=lambda x: x["login"])`: ascending,
case-sensitive lexical order on the login string. -/
def sortRows (l : List Row) : List Row :=
  l.mergeSort (fun a b => decide (a.login ≤ b.login))

/-- The merge-and-rewrite step of `update_csv` (shoot.py lines 113-127) at
the level of data rows. `old_rows` is the row list of the existing file
(`none` when the file is missing, in which case the FileNotFoundError handler
starts from an empty dict); reading builds `existing_data` as a dict keyed by
login (last row wins); each new row overwrites at its login key; the values
are then sorted by login. -/
def update_csv_rows (old_rows : Option (List Row)) (new_data : List Row) : List Row :=
  let existing_data := (old_rows.getD []).foldl insertOrReplace []
  let combined_data := new_data.foldl insertOrReplace existing_data
  sortRows combined_data

/-- The fixed header written by `update_csv` (shoot.py lines 130-135). -/
def fieldnames : List String :=
  ["starred_at", "id", "login", "name", "company", "location", "email", "bio",
   "twitter_username", "followers_count", "following_count",
   "public_repos", "public_gists", "blog", "hireable",
   "created_at", "updated_at"]

/-- A row serialized in the fixed field order of the CSV writer. -/
def rowRecord (r : Row) : List String :=
  [r.starred_at, r.id, r.login, r.name, r.company, r.location, r.email, r.bio,
   r.twitter_username, r.followers_count, r.following_count,
   r.public_repos, r.public_gists, r.blog, r.hireable,
   r.created_at, r.updated_at]

/-- The full file written by `update_csv`: the header record followed by the
merged data rows (shoot.py lines 136-139). -/
def update_csv_file (old_rows : Option (List Row)) (new_data : List Row) : List (List String) :=
  fieldnames :: (update_csv_rows old_rows new_data).map rowRecord

/-- The last row in `m` carrying login `k`, if any: the value the Python dict
construction ends up storing at key `k`. -/
def lastWith : List Row → String → Option Row
  | [], _ => none
  | x :: xs, k => (lastWith xs k).or (if x.login = k then some x else none)

/-- All rows of `l` carrying login `k`, in order. -/
def rowsFor (l : List Row) (k : String) : List Row :=
  l.filter (fun x => decide (x.login = k))

/-! Lemmas about the dict model. -/

theorem or_some_left {α : Type} (a : α) (b : Option α) : (some a).or b = some a := rfl

theorem or_self_or {α : Type} (a b : Option α) : a.or (a.or b) = a.or b := by
  cases a <;> simp [Option.or]

theorem map_or_distrib {α β : Type} (f : α → β) (a b : Option α) :
    (a.or b).map f = (a.map f).or (b.map f) := by
  cases a <;> rfl

theorem login_replace (r x : Row) :
    (if x.login = r.login then r else x).login = x.login := by
  split
  · simp [*]
  · rfl

theorem keys_insertOrReplace_mem (m : List Row) (r : Row) (h : r.login ∈ keys m) :
    keys (insertOrReplace m r) = keys m := by
  unfold insertOrReplace
  rw [if_pos h]
  unfold keys
  rw [List.map_map]
  exact List.map_congr_left (fun x _ => login_replace r x)

theorem keys_insertOrReplace_not_mem (m : List Row) (r : Row) (h : r.login ∉ keys m) :
    keys (insertOrReplace m r) = keys m ++ [r.login] := by
  unfold insertOrReplace
  rw [if_neg h]
  unfold keys
  rw [List.map_append]
  rfl

theorem nodup_keys_insertOrReplace (m : List Row) (r : Row) (h : (keys m).Nodup) :
    (keys (insertOrReplace m r)).Nodup := by
  by_cases hm : r.login ∈ keys m
  · rw [keys_insertOrReplace_mem m r hm]; exact h
  · rw [keys_insertOrReplace_not_mem m r hm]
    rw [List.nodup_append]
    refine ⟨h, List.nodup_singleton _, ?_⟩
    intro a ha hb
    simp only [List.mem_singleton] at hb
    exact hm (hb ▸ ha)

theorem nodup_keys_foldl (l : List Row) :
    ∀ m : List Row, (keys m).Nodup → (keys (l.foldl insertOrReplace m)).Nodup := by
  induction l with
  | nil => intro m h; exact h
  | cons x xs ih =>
    intro m h
    exact ih (insertOrReplace m x) (nodup_keys_insertOrReplace m x h)

theorem lastWith_append (a b : List Row) (k : String) :
    lastWith (a ++ b) k = (lastWith b k).or (lastWith a k) := by
  induction a with
  | nil => simp [lastWith]
  | cons x xs ih =>
    have h1 : (x :: xs) ++ b = x :: (xs ++ b) := rfl
    rw [h1]
    show (lastWith (xs ++ b) k).or _ = _
    rw [ih, Option.or_assoc]
    rfl

theorem lastWith_map_replace (r : Row) (m : List Row) (k : String) :
    lastWith (m.map (fun x => if x.login = r.login then r else x)) k =
      if r.login = k then (lastWith m k).map (fun _ => r) else lastWith m k := by
  induction m with
  | nil =>
    simp only [List.map_nil, lastWith]
    split <;> rfl
  | cons x xs ih =>
    simp only [List.map_cons, lastWith, ih]
    by_cases hk : r.login = k
    · subst hk
      rw [if_pos rfl, if_pos rfl, map_or_distrib]
      congr 1
      rw [login_replace]
      by_cases hx : x.login = r.login
      · rw [if_pos hx, if_pos hx, if_pos hx]; rfl
      · rw [if_neg hx, if_neg hx]; rfl
    · rw [if_neg hk, if_neg hk, login_replace]
      by_cases hx : x.login = k
      · have hxr : ¬ x.login = r.login := fun hh => hk (hh ▸ hx.symm ▸ rfl)
        rw [if_pos hx, if_neg hxr, if_pos hx]
      · rw [if_neg hx, if_neg hx]

theorem lastWith_eq_none_iff (m : List Row) (k : String) :
    lastWith m k = none ↔ ∀ x ∈ m, x.login ≠ k := by
  induction m with
  | nil => simp [lastWith]
  | cons x xs ih =>
    simp only [lastWith, List.mem_cons]
    constructor
    · intro h
      have h1 : lastWith xs k = none := by
        cases hlw : lastWith xs k with
        | none => rfl
        | some y => rw [hlw, or_some_left] at h; exact absurd h (by simp)
      rw [h1, Option.none_or] at h
      intro y hy
      rcases hy with rfl | hy
      · intro hlog; rw [if_pos hlog] at h; exact absurd h (by simp)
      · exact (ih.mp h1) y hy
    · intro h
      have h1 : lastWith xs k = none := ih.mpr (fun y hy => h y (Or.inr hy))
      rw [h1, Option.none_or, if_neg (h x (Or.inl rfl))]

theorem lastWith_mem (m : List Row) (k : String) (x : Row)
    (h : lastWith m k = some x) : x ∈ m ∧ x.login = k := by
  induction m with
  | nil => simp [lastWith] at h
  | cons y ys ih =>
    simp only [lastWith] at h
    cases hlw : lastWith ys k with
    | some z =>
      rw [hlw, or_some_left] at h
      obtain rfl : z = x := by injection h
      obtain ⟨h1, h2⟩ := ih hlw
      exact ⟨List.mem_cons_of_mem _ h1, h2⟩
    | none =>
      rw [hlw, Option.none_or] at h
      by_cases hy : y.login = k
      · rw [if_pos hy] at h
        obtain rfl : y = x := by injection h
        exact ⟨List.mem_cons_self _ _, hy⟩
      · rw [if_neg hy] at h; exact absurd h (by simp)

theorem lastWith_ne_none (m : List Row) (k : String) (h : k ∈ keys m) :
    lastWith m k ≠ none := by
  intro hn
  obtain ⟨x, hx, hlog⟩ := List.mem_map.mp h
  exact (lastWith_eq_none_iff m k).mp hn x hx hlog

theorem lastWith_insertOrReplace (m : List Row) (r : Row) (k : String) :
    lastWith (insertOrReplace m r) k = if r.login = k then some r else lastWith m k := by
  unfold insertOrReplace
  by_cases hm : r.login ∈ keys m
  · rw [if_pos hm, lastWith_map_replace]
    by_cases hk : r.login = k
    · rw [if_pos hk, if_pos hk]
      cases hlw : lastWith m k with
      | none => exact absurd hlw (hk ▸ lastWith_ne_none m k (hk ▸ hm))
      | some y => rfl
    · rw [if_neg hk, if_neg hk]
  · rw [if_neg hm, lastWith_append]
    simp only [lastWith, Option.none_or]
    by_cases hk : r.login = k
    · rw [if_pos hk, if_pos hk, or_some_left]
    · rw [if_neg hk, if_neg hk, Option.none_or]

theorem lastWith_foldl (l : List Row) :
    ∀ (m : List Row) (k : String),
      lastWith (l.foldl insertOrReplace m) k = (lastWith l k).or (lastWith m k) := by
  induction l with
  | nil => intro m k; simp [lastWith]
  | cons x xs ih =>
    intro m k
    simp only [List.foldl_cons, ih, lastWith, lastWith_insertOrReplace, Option.or_assoc]
    congr 1
    by_cases hx : x.login = k
    · rw [if_pos hx, if_pos hx, or_some_left]
    · rw [if_neg hx, if_neg hx, Option.none_or]

theorem mem_iff_lastWith (m : List Row) (h : (keys m).Nodup) (r : Row) :
    r ∈ m ↔ lastWith m r.login = some r := by
  induction m with
  | nil => simp [lastWith]
  | cons x xs ih =>
    have hk : keys (x :: xs) = x.login :: keys xs := rfl
    rw [hk, List.nodup_cons] at h
    obtain ⟨hx, hxs⟩ := h
    constructor
    · intro hr
      rcases List.mem_cons.mp hr with rfl | hr
      · show (lastWith xs r.login).or _ = _
        have hnone : lastWith xs r.login = none :=
          (lastWith_eq_none_iff xs r.login).mpr
            (fun y hy hlog => hx (hlog ▸ List.mem_map.mpr ⟨y, hy, rfl⟩))
        rw [hnone, Option.none_or, if_pos rfl]
      · show (lastWith xs r.login).or _ = _
        rw [(ih hxs).mp hr, or_some_left]
    · intro hlw
      change (lastWith xs r.login).or (if x.login = r.login then some x else none) = some r at hlw
      cases hc : lastWith xs r.login with
      | some y =>
        rw [hc, or_some_left] at hlw
        obtain rfl : y = r := by injection hlw
        exact List.mem_cons_of_mem _ ((ih hxs).mpr hc)
      | none =>
        rw [hc, Option.none_or] at hlw
        by_cases hlog : x.login = r.login
        · rw [if_pos hlog] at hlw
          obtain rfl : x = r := by injection hlw
          exact List.mem_cons_self _ _
        · rw [if_neg hlog] at hlw; exact absurd hlw (by simp)

theorem lastWith_eq_some_iff (m : List Row) (h : (keys m).Nodup) (x : Row) (k : String) :
    lastWith m k = some x ↔ x ∈ m ∧ x.login = k := by
  constructor
  · exact lastWith_mem m k x
  · rintro ⟨hm, rfl⟩
    exact (mem_iff_lastWith m h x).mp hm

theorem lastWith_perm (m m2 : List Row) (h : (keys m).Nodup) (p : m.Perm m2) (k : String) :
    lastWith m k = lastWith m2 k := by
  have h2 : (keys m2).Nodup := ((p.map Row.login).nodup_iff).mp h
  cases hc : lastWith m k with
  | some x =>
    obtain ⟨hm, hk⟩ := lastWith_mem m k x hc
    exact ((lastWith_eq_some_iff m2 h2 x k).mpr ⟨p.mem_iff.mp hm, hk⟩).symm
  | none =>
    have hall := (lastWith_eq_none_iff m k).mp hc
    exact ((lastWith_eq_none_iff m2 k).mpr (fun y hy => hall y (p.mem_iff.mpr hy))).symm

theorem lastWith_of_uniq (m : List Row) (r : Row) (hr : r ∈ m)
    (hu : ∀ x ∈ m, x.login = r.login → x = r) :
    lastWith m r.login = some r := by
  cases hc : lastWith m r.login with
  | none => exact absurd rfl ((lastWith_eq_none_iff m r.login).mp hc r hr)
  | some x =>
    obtain ⟨hm, hk⟩ := lastWith_mem m r.login x hc
    rw [hu x hm hk]

theorem sortRows_perm (l : List Row) : (sortRows l).Perm l :=
  List.mergeSort_perm l _

theorem sortRows_sorted (l : List Row) :
    List.Pairwise (fun a b : Row => a.login ≤ b.login) (sortRows l) := by
  have h := @List.sorted_mergeSort Row (fun a b : Row => decide (a.login ≤ b.login))
    (fun a b c hab hbc =>
      decide_eq_true (le_trans (of_decide_eq_true hab) (of_decide_eq_true hbc)))
    (fun a b => by rcases le_total a.login b.login with h | h <;> simp [h]) l
  exact h.imp (fun hab => of_decide_eq_true hab)

theorem update_csv_rows_eq (old_rows : Option (List Row)) (new_data : List Row) :
    update_csv_rows old_rows new_data =
      sortRows (new_data.foldl insertOrReplace ((old_rows.getD []).foldl insertOrReplace [])) := rfl

theorem nodup_keys_update (old_rows : Option (List Row)) (new_data : List Row) :
    (keys (new_data.foldl insertOrReplace ((old_rows.getD []).foldl insertOrReplace []))).Nodup := by
  apply nodup_keys_foldl
  apply nodup_keys_foldl
  simp [keys]

theorem update_nodup_keys (old_rows : Option (List Row)) (new_data : List Row) :
    (keys (update_csv_rows old_rows new_data)).Nodup := by
  rw [update_csv_rows_eq]
  exact (((sortRows_perm _).map Row.login).nodup_iff).mpr (nodup_keys_update old_rows new_data)

theorem update_sorted (old_rows : Option (List Row)) (new_data : List Row) :
    List.Pairwise (fun a b : Row => a.login ≤ b.login) (update_csv_rows old_rows new_data) := by
  rw [update_csv_rows_eq]; exact sortRows_sorted _

theorem mem_update_csv_rows (old_rows : Option (List Row)) (new_data : List Row) (r : Row) :
    r ∈ update_csv_rows old_rows new_data ↔
      (lastWith new_data r.login).or (lastWith (old_rows.getD []) r.login) = some r := by
  rw [update_csv_rows_eq]
  rw [(sortRows_perm _).mem_iff,
    mem_iff_lastWith _ (nodup_keys_update old_rows new_data) r,
    lastWith_foldl, lastWith_foldl]
  show (lastWith new_data r.login).or
      ((lastWith (old_rows.getD []) r.login).or (lastWith [] r.login)) = some r ↔ _
  rw [show lastWith [] r.login = none from rfl, Option.or_none]

theorem pairwise_lt_of_sorted_nodup (l : List Row)
    (hs : List.Pairwise (fun a b : Row => a.login ≤ b.login) l)
    (hn : (keys l).Nodup) :
    List.Pairwise (fun a b : Row => a.login < b.login) l := by
  have hne : List.Pairwise (fun a b : Row => a.login ≠ b.login) l :=
    List.pairwise_map.mp hn
  exact (hs.and hne).imp (fun h => lt_of_le_of_ne h.1 h.2)

theorem eq_of_sorted_nodup_mem (l1 l2 : List Row)
    (h1 : (keys l1).Nodup) (h2 : (keys l2).Nodup)
    (s1 : List.Pairwise (fun a b : Row => a.login ≤ b.login) l1)
    (s2 : List.Pairwise (fun a b : Row => a.login ≤ b.login) l2)
    (hm : ∀ r : Row, r ∈ l1 ↔ r ∈ l2) : l1 = l2 := by
  haveI : IsAntisymm Row (fun a b => a.login < b.login) :=
    ⟨fun a b hab hba => absurd (lt_trans hab hba) (lt_irrefl _)⟩
  have p : l1.Perm l2 :=
    (List.perm_ext_iff_of_nodup (List.Nodup.of_map _ h1) (List.Nodup.of_map _ h2)).mpr hm
  exact List.eq_of_perm_of_sorted p
    (pairwise_lt_of_sorted_nodup l1 s1 h1) (pairwise_lt_of_sorted_nodup l2 s2 h2)

theorem rowsFor_eq_nil (l : List Row) (k : String) (h : ∀ x ∈ l, x.login ≠ k) :
    rowsFor l k = [] := by
  apply List.filter_eq_nil_iff.mpr
  intro a ha
  simp only [decide_eq_true_eq]
  exact h a ha

theorem rowsFor_eq_single (l : List Row) (r : Row) (hn : (keys l).Nodup) (hr : r ∈ l) :
    rowsFor l r.login = [r] := by
  induction l with
  | nil => simp at hr
  | cons x xs ih =>
    have hk : keys (x :: xs) = x.login :: keys xs := rfl
    rw [hk, List.nodup_cons] at hn
    obtain ⟨hx, hxs⟩ := hn
    rcases List.mem_cons.mp hr with rfl | hr2
    · unfold rowsFor
      rw [List.filter_cons, if_pos (by simp)]
      have hnil : rowsFor xs r.login = [] :=
        rowsFor_eq_nil xs r.login
          (fun y hy hlog => hx (hlog ▸ List.mem_map.mpr ⟨y, hy, rfl⟩))
      unfold rowsFor at hnil
      rw [hnil]
    · have hxr : ¬ x.login = r.login := fun hh => hx (hh ▸ List.mem_map.mpr ⟨r, hr2, rfl⟩)
      unfold rowsFor
      rw [List.filter_cons, if_neg (by simp [hxr])]
      exact ih hxs hr2

theorem foldl_insertOrReplace_append (l : List Row) :
    ∀ m : List Row, (keys l).Nodup → (∀ k ∈ keys l, k ∉ keys m) →
      l.foldl insertOrReplace m = m ++ l := by
  induction l with
  | nil => intro m _ _; simp
  | cons x xs ih =>
    intro m hn hd
    have hk : keys (x :: xs) = x.login :: keys xs := rfl
    rw [hk, List.nodup_cons] at hn
    have hxm : x.login ∉ keys m := hd x.login (by rw [hk]; exact List.mem_cons_self _ _)
    have h1 : insertOrReplace m x = m ++ [x] := by unfold insertOrReplace; rw [if_neg hxm]
    have hd2 : ∀ k ∈ keys xs, k ∉ keys (m ++ [x]) := by
      intro k hkx hkm
      have hkeys : keys (m ++ [x]) = keys m ++ [x.login] := by
        unfold keys; rw [List.map_append]; rfl
      rw [hkeys] at hkm
      rcases List.mem_append.mp hkm with hm2 | hs
      · exact hd k (by rw [hk]; exact List.mem_cons_of_mem _ hkx) hm2
      · simp only [List.mem_singleton] at hs
        exact hn.1 (hs ▸ hkx)
    rw [List.foldl_cons, h1, ih (m ++ [x]) hn.2 hd2, List.append_assoc]
    rfl

/-- A sample persisted row used in witnesses: a login and a followers count,
all other fields fixed. -/
def sampleRow (login : String) (followers : String) : Row :=
  { starred_at := "2024-01-01T00:00:00Z", id := "1", login := login,
    name := "n", company := "c", location := "l", email := "e", bio := "b",
    twitter_username := "t", followers_count := followers,
    following_count := "0", public_repos := "0", public_gists := "0",
    blog := "", hireable := "", created_at := "", updated_at := "" }

/-- C1: if a login appears both in the old file and in the new fetch (the new
fetch carrying a single row for it), the file written by update_csv stores
exactly that new-fetch row for the login, field for field: the old row is
fully replaced, never merged field-by-field. -/
theorem overwrite_semantics (old_rows new_data : List Row) (r o : Row)
    (hr : r ∈ new_data)
    (huniq : ∀ x ∈ new_data, x.login = r.login → x = r)
    (ho : o ∈ old_rows) (holog : o.login = r.login) :
    rowsFor (update_csv_rows (some old_rows) new_data) r.login = [r] := by
  have hlw : lastWith new_data r.login = some r := lastWith_of_uniq new_data r hr huniq
  have hmem : r ∈ update_csv_rows (some old_rows) new_data :=
    (mem_update_csv_rows (some old_rows) new_data r).mpr (by rw [hlw]; rfl)
  exact rowsFor_eq_single _ r (update_nodup_keys _ _) hmem

/-- Witness for C1: the spec scenario, alice present in the old file with
followers 10 and refetched with followers 15. -/
theorem overwrite_semantics_witness :
    sampleRow "alice" "15" ∈ [sampleRow "alice" "15", sampleRow "bob" "2"] ∧
    rowsFor (update_csv_rows (some [sampleRow "alice" "10"])
      [sampleRow "alice" "15", sampleRow "bob" "2"]) "alice" = [sampleRow "alice" "15"] :=
  ⟨by decide, overwrite_semantics [sampleRow "alice" "10"]
    [sampleRow "alice" "15", sampleRow "bob" "2"]
    (sampleRow "alice" "15") (sampleRow "alice" "10")
    (by decide) (by decide) (by decide) (by decide)⟩

/-- C2: a login present in the old file (as a single row) and absent from the
new fetch keeps exactly its old row, unchanged, in the file written by
update_csv: rows not targeted by the merge are neither modified nor
dropped. -/
theorem union_preserving (old_rows new_data : List Row) (o : Row)
    (ho : o ∈ old_rows)
    (huniq : ∀ x ∈ old_rows, x.login = o.login → x = o)
    (habs : ∀ r ∈ new_data, r.login ≠ o.login) :
    rowsFor (update_csv_rows (some old_rows) new_data) o.login = [o] := by
  have h1 : lastWith new_data o.login = none := (lastWith_eq_none_iff _ _).mpr habs
  have h2 : lastWith old_rows o.login = some o := lastWith_of_uniq old_rows o ho huniq
  have hmem : o ∈ update_csv_rows (some old_rows) new_data :=
    (mem_update_csv_rows (some old_rows) new_data o).mpr (by
      show (lastWith new_data o.login).or (lastWith old_rows o.login) = some o
      rw [h1, h2, Option.none_or])
  exact rowsFor_eq_single _ o (update_nodup_keys _ _) hmem

/-- Witness for C2: carol is in the old file and absent from the new fetch;
her row survives the merge unchanged. -/
theorem union_preserving_witness :
    sampleRow "carol" "7" ∈ [sampleRow "carol" "7", sampleRow "alice" "10"] ∧
    rowsFor (update_csv_rows (some [sampleRow "carol" "7", sampleRow "alice" "10"])
      [sampleRow "alice" "15"]) "carol" = [sampleRow "carol" "7"] :=
  ⟨by decide, union_preserving [sampleRow "carol" "7", sampleRow "alice" "10"]
    [sampleRow "alice" "15"] (sampleRow "carol" "7")
    (by decide) (by decide) (by decide)⟩

/-- C3: for every input, the data rows written by update_csv have pairwise
distinct login values. -/
theorem key_uniqueness (old_rows : Option (List Row)) (new_data : List Row) :
    ((update_csv_rows old_rows new_data).map Row.login).Nodup :=
  update_nodup_keys old_rows new_data

/-- C4: for every input, the data rows written by update_csv are in
non-decreasing, case-sensitive lexical order of their login field. -/
theorem sort_invariant (old_rows : Option (List Row)) (new_data : List Row) :
    List.Sorted (fun a b : Row => a.login ≤ b.login) (update_csv_rows old_rows new_data) :=
  update_sorted old_rows new_data

/-- C5: merging the same new-row set a second time, on top of the file the
first merge wrote, reproduces exactly the same file contents. -/
theorem merge_idempotent (old_rows : Option (List Row)) (new_data : List Row) :
    update_csv_rows (some (update_csv_rows old_rows new_data)) new_data =
      update_csv_rows old_rows new_data := by
  apply eq_of_sorted_nodup_mem _ _ (update_nodup_keys _ _) (update_nodup_keys _ _)
    (update_sorted _ _) (update_sorted _ _)
  intro r
  rw [mem_update_csv_rows (some (update_csv_rows old_rows new_data)) new_data r,
    mem_update_csv_rows old_rows new_data r]
  have hgd : (some (update_csv_rows old_rows new_data)).getD [] =
      update_csv_rows old_rows new_data := rfl
  rw [hgd]
  have hc : lastWith (update_csv_rows old_rows new_data) r.login =
      (lastWith new_data r.login).or (lastWith (old_rows.getD []) r.login) := by
    rw [update_csv_rows_eq]
    rw [← lastWith_perm _ _ (nodup_keys_update old_rows new_data) (sortRows_perm _).symm r.login]
    rw [lastWith_foldl, lastWith_foldl]
    rw [show lastWith [] r.login = none from rfl, Option.or_none]
  rw [hc, or_self_or]

/-- C9: a missing file is not an error: the FileNotFoundError handler starts
the merge from an empty dict, and the written file is the header record
followed by exactly the new rows (as a set; they are written in login
order). -/
theorem missing_file_empty_base (new_data : List Row)
    (h : (new_data.map Row.login).Nodup) :
    update_csv_file none new_data =
      fieldnames :: (update_csv_rows none new_data).map rowRecord ∧
    (update_csv_rows none new_data).Perm new_data := by
  refine ⟨rfl, ?_⟩
  rw [update_csv_rows_eq]
  have h1 : ((none : Option (List Row)).getD []).foldl insertOrReplace [] = [] := rfl
  rw [h1]
  have h2 : new_data.foldl insertOrReplace [] = new_data := by
    rw [foldl_insertOrReplace_append new_data [] h (by simp [keys])]
    exact List.nil_append new_data
  rw [h2]
  exact sortRows_perm new_data

/-- Witness for C9: two fresh rows merged into a missing file. -/
theorem missing_file_empty_base_witness :
    (([sampleRow "bob" "2", sampleRow "alice" "10"]).map Row.login).Nodup ∧
    (update_csv_file none [sampleRow "bob" "2", sampleRow "alice" "10"] =
      fieldnames :: (update_csv_rows none
        [sampleRow "bob" "2", sampleRow "alice" "10"]).map rowRecord ∧
    (update_csv_rows none [sampleRow "bob" "2", sampleRow "alice" "10"]).Perm
      [sampleRow "bob" "2", sampleRow "alice" "10"]) :=
  ⟨by decide, missing_file_empty_base [sampleRow "bob" "2", sampleRow "alice" "10"] (by decide)⟩

/-! The pagination chain machinery. -/

/-- Items of a page whose body decoded to a JSON array; empty otherwise. -/
def itemsOf {U : Type} (r : Response U) : List Json :=
  match r.body with
  | some (Json.arr items) => items
  | _ => []

/-- A well-formed raw star entry: subscripting with "user" and "starred_at"
succeeds (the entry is a dict carrying both keys). -/
def wfEntry (item : Json) : Prop :=
  (∃ u, getKey item "user" = .ok u) ∧ (∃ s, getKey item "starred_at" = .ok s)

/-- Value of a successful subscript, defaulting to null. -/
def exValue (e : Except Unit Json) : Json :=
  match e with
  | .ok v => v
  | .error _ => Json.null

/-- The pair the pagination loop appends for one raw entry. -/
def pairOf (item : Json) : Json × Json :=
  (exValue (getKey item "user"), exValue (getKey item "starred_at"))

/-- A good page pointing at `nxt`: HTTP 200, a body that decodes to a
nonempty JSON array of well-formed entries, and a next-page link to `nxt`. -/
def goodPage {U : Type} (r : Response U) (nxt : U) : Prop :=
  r.status_code = 200 ∧ r.body = some (Json.arr (itemsOf r)) ∧
  itemsOf r ≠ [] ∧ (∀ item ∈ itemsOf r, wfEntry item) ∧ r.links_next = some nxt

/-- A mocked paginated source: the pages at the URLs in `good` are good pages
chained in order, the chain ending at the URL `last`. -/
def chainGood {U : Type} (fetch : U → Response U) : List U → U → Prop
  | [], _ => True
  | u :: rest, last => goodPage (fetch u) (rest.headD last) ∧ chainGood fetch rest last

/-- The entry pairs of one page. -/
def pageEntries {U : Type} (fetch : U → Response U) (u : U) : List (Json × Json) :=
  (itemsOf (fetch u)).map pairOf

/-- The concatenation, in order, of the entry pairs of the pages in `good`. -/
def entriesOf {U : Type} (fetch : U → Response U) (good : List U) : List (Json × Json) :=
  good.flatMap (pageEntries fetch)

theorem processItems_ok (items : List Json) (h : ∀ item ∈ items, wfEntry item) :
    ∀ acc, processItems items acc = .ok (acc ++ items.map pairOf) := by
  induction items with
  | nil => intro acc; simp [processItems]
  | cons item rest ih =>
    intro acc
    obtain ⟨⟨u, hu⟩, ⟨s, hs⟩⟩ := h item (List.mem_cons_self _ _)
    simp only [processItems, hu, hs]
    rw [ih (fun it hit => h it (List.mem_cons_of_mem _ hit)) (acc ++ [(u, s)])]
    have hp : pairOf item = (u, s) := by unfold pairOf exValue; rw [hu, hs]
    rw [List.map_cons, hp, List.append_assoc]
    rfl

theorem get_stargazers_good_step {U : Type} (fetch : U → Response U) (u nxt : U)
    (fuel : Nat) (acc : List (Json × Json)) (h : goodPage (fetch u) nxt) :
    get_stargazers fetch (fuel + 1) u acc =
      get_stargazers fetch fuel nxt (acc ++ pageEntries fetch u) := by
  obtain ⟨hst, hbody, hne, hwf, hnxt⟩ := h
  have hie : (itemsOf (fetch u)).isEmpty = false := List.isEmpty_eq_false.mpr hne
  simp only [get_stargazers, hst, hbody, hnxt, truthy, iterElems, hie,
    processItems_ok _ hwf acc]
  rfl

theorem get_stargazers_chain {U : Type} (fetch : U → Response U) :
    ∀ (good : List U) (last : U) (acc : List (Json × Json)) (fuel : Nat),
      chainGood fetch good last →
      get_stargazers fetch (good.length + fuel) (good.headD last) acc =
        get_stargazers fetch fuel last (acc ++ entriesOf fetch good) := by
  intro good
  induction good with
  | nil =>
    intro last acc fuel _
    simp [entriesOf]
  | cons u rest ih =>
    intro last acc fuel hc
    obtain ⟨hgood, hrest⟩ := hc
    have hlen : (u :: rest).length + fuel = (rest.length + fuel) + 1 := by
      simp [List.length_cons]; omega
    rw [hlen]
    have hhead : (u :: rest).headD last = u := rfl
    rw [hhead]
    rw [get_stargazers_good_step fetch u (rest.headD last) (rest.length + fuel) acc hgood]
    rw [ih last (acc ++ pageEntries fetch u) fuel hrest]
    rw [List.append_assoc]
    have hent : pageEntries fetch u ++ entriesOf fetch rest = entriesOf fetch (u :: rest) := by
      unfold entriesOf
      rw [List.flatMap_cons]
    rw [hent]

/-- C6: over a mocked paginated source whose good pages are chained in order
and whose final page is empty (falsy body), get_stargazers terminates — for
every fuel of at least pages-plus-one iterations it exits the loop — and
returns exactly the concatenation, in order, of the entry pairs of the good
pages. -/
theorem pagination_termination {U : Type} (fetch : U → Response U)
    (good : List U) (last : U) (j : Json)
    (hchain : chainGood fetch good last)
    (hst : (fetch last).status_code = 200)
    (hbody : (fetch last).body = some j)
    (hfalsy : truthy j = false) :
    ∀ fuel, good.length + 1 ≤ fuel →
      get_stargazers fetch fuel (good.headD last) [] = .ok (entriesOf fetch good) := by
  intro fuel hfuel
  obtain ⟨k, hk⟩ : ∃ k, fuel = good.length + (k + 1) := ⟨fuel - good.length - 1, by omega⟩
  subst hk
  rw [get_stargazers_chain fetch good last [] (k + 1) hchain]
  show get_stargazers fetch (k + 1) last (entriesOf fetch good) = _
  simp only [get_stargazers, hst, hbody, hfalsy]
  rfl

/-- C8: when the chain of good pages ends at a page answered with a non-200
status, get_stargazers stops there and returns exactly the entries collected
from the earlier successful pages, raising nothing and reporting nothing. -/
theorem non200_partial_results {U : Type} (fetch : U → Response U)
    (good : List U) (last : U)
    (hchain : chainGood fetch good last)
    (hst : (fetch last).status_code ≠ 200) :
    ∀ fuel, good.length + 1 ≤ fuel →
      get_stargazers fetch fuel (good.headD last) [] = .ok (entriesOf fetch good) := by
  intro fuel hfuel
  obtain ⟨k, hk⟩ : ∃ k, fuel = good.length + (k + 1) := ⟨fuel - good.length - 1, by omega⟩
  subst hk
  rw [get_stargazers_chain fetch good last [] (k + 1) hchain]
  show get_stargazers fetch (k + 1) last (entriesOf fetch good) = _
  simp only [get_stargazers]
  rw [if_pos hst]

/-- A mocked fetch whose single page returns HTTP 200 with a decoded body
that is truthy but not a sequence of entries: a dict, as the upstream API
returns for error messages. -/
def malformedFetch : Nat → Response Nat :=
  fun _ => { status_code := 200,
             body := some (Json.obj [("message", Json.str "x")]),
             links_next := none }

/-- Counterexample to C7: on a page whose decoded body is malformed (a truthy
non-sequence), get_stargazers raises — the run ends in an uncaught TypeError
while iterating — instead of stopping the loop and returning the entries
collected so far. -/
theorem malformed_page_raises :
    get_stargazers malformedFetch 1 0 [] = StarResult.exn := rfl

/-- A decoded body that is a sequence of well-formed star entries: a JSON
array all of whose items can be subscripted with "user" and "starred_at". -/
def isEntrySeq (j : Json) : Prop :=
  ∃ items, j = Json.arr items ∧ ∀ item ∈ items, wfEntry item

theorem processItems_error (items : List Json)
    (h : ¬ ∀ item ∈ items, wfEntry item) :
    ∀ acc, processItems items acc = .error () := by
  induction items with
  | nil => exact absurd (fun item hi => absurd hi (List.not_mem_nil _)) h
  | cons item rest ih =>
    intro acc
    cases hgu : getKey item "user" with
    | error e => simp only [processItems, hgu]
    | ok u =>
      cases hgs : getKey item "starred_at" with
      | error e => simp only [processItems, hgu, hgs]
      | ok s =>
        have hw : wfEntry item := ⟨⟨u, hgu⟩, ⟨s, hgs⟩⟩
        have h2 : ¬ ∀ x ∈ rest, wfEntry x := by
          intro hall
          apply h
          intro x hx
          rcases List.mem_cons.mp hx with rfl | hx2
          · exact hw
          · exact hall x hx2
        simp only [processItems, hgu, hgs]
        exact ih h2 (acc ++ [(u, s)])

theorem processItems_str_head (a : String) (rest : List Json)
    (acc : List (Json × Json)) :
    processItems (Json.str a :: rest) acc = .error () := rfl

/-- On a truthy decoded body that is not a sequence of well-formed entries,
the loop body fails: either the `for` statement itself is a TypeError
(non-iterable body), or some iterated item cannot be subscripted — a dict
body yields string keys, a string body yields characters, and a bad array
item fails at its first missing subscript. -/
theorem iter_or_process_fails (j : Json) (acc : List (Json × Json))
    (htruthy : truthy j = true) (hmal : ¬ isEntrySeq j) :
    iterElems j = .error () ∨
      ∃ items, iterElems j = .ok items ∧ processItems items acc = .error () := by
  cases j with
  | null => exact absurd htruthy (by simp [truthy])
  | bool b => exact Or.inl rfl
  | num n => exact Or.inl rfl
  | str s =>
    refine Or.inr ⟨s.data.map (fun c => Json.str (String.singleton c)), rfl, ?_⟩
    have hne : s ≠ "" := by simpa [truthy] using htruthy
    have hdata : s.data ≠ [] := fun hd => hne (String.ext (hd.trans rfl))
    cases hd : s.data with
    | nil => exact absurd hd hdata
    | cons c cs => exact processItems_str_head _ _ _
  | arr items =>
    refine Or.inr ⟨items, rfl, ?_⟩
    apply processItems_error
    intro hall
    exact hmal ⟨items, rfl, hall⟩
  | obj fields =>
    refine Or.inr ⟨fields.map (fun kv : String × Json => Json.str kv.1), rfl, ?_⟩
    have hne : fields ≠ [] := by simpa [truthy] using htruthy
    cases hd : fields with
    | nil => exact absurd hd hne
    | cons kv rest => exact processItems_str_head _ _ _

/-- C7 amended: a fetched page whose decoded body is empty (falsy) stops the
loop and returns the entries collected so far; a decoded body that is truthy
but malformed — not a sequence of well-formed entry dicts — instead makes the
run raise. Only sequence pages have their pairs appended. -/
theorem empty_page_stops {U : Type} (fetch : U → Response U) (u : U)
    (fuel : Nat) (acc : List (Json × Json)) (j : Json)
    (hst : (fetch u).status_code = 200)
    (hbody : (fetch u).body = some j) :
    (truthy j = false → get_stargazers fetch (fuel + 1) u acc = .ok acc) ∧
    (truthy j = true → ¬ isEntrySeq j →
      get_stargazers fetch (fuel + 1) u acc = .exn) := by
  constructor
  · intro hfalsy
    simp only [get_stargazers, hst, hbody, hfalsy]
    rfl
  · intro htruthy hmal
    rcases iter_or_process_fails j acc htruthy hmal with herr | ⟨items, hiter, hproc⟩
    · simp only [get_stargazers, hst, hbody, htruthy, herr]
      rfl
    · simp only [get_stargazers, hst, hbody, htruthy, hiter, hproc]
      rfl

/-- A mocked fetch whose single page is HTTP 200 with an empty JSON array. -/
def emptyFetch : Nat → Response Nat :=
  fun _ => { status_code := 200, body := some (Json.arr []), links_next := none }

/-- Witness for the amended C7: the empty page stops the loop at once with
the (empty) collected entries. -/
theorem empty_page_stops_witness :
    get_stargazers emptyFetch 1 0 [] = StarResult.ok [] :=
  (empty_page_stops emptyFetch 0 0 [] (Json.arr []) rfl rfl).1 rfl

/-- C10: a profile fetch answered HTTP 200 with a falsy JSON body leaves
new_data unchanged in the enrichment loop — the user is silently excluded
from the merged output — exactly as a non-200 fetch does: inclusion is
decided by the truthiness of the decoded body, not by the status code
alone. -/
theorem falsy_profile_excluded {U : Type} (r r2 : Response U) (starred_at : Json)
    (new_data : List RowJson) (j : Json)
    (hst : r.status_code = 200) (hbody : r.body = some j) (hfal : truthy j = false)
    (hst2 : r2.status_code ≠ 200) :
    enrichStep starred_at r new_data = .ok new_data ∧
    enrichStep starred_at r2 new_data = .ok new_data := by
  constructor
  · unfold enrichStep get_user_details
    rw [if_pos hst, hbody]
    simp [hfal]
  · unfold enrichStep get_user_details
    rw [if_neg hst2]

/-- A raw star entry dict, as the listing endpoint returns. -/
def entryJson (u s : String) : Json :=
  Json.obj [("user", Json.str u), ("starred_at", Json.str s)]

theorem wfEntry_entryJson (u s : String) : wfEntry (entryJson u s) :=
  ⟨⟨Json.str u, rfl⟩, ⟨Json.str s, rfl⟩⟩

/-- A mocked three-page source: two nonempty pages chained by next links,
then an empty page. -/
def mockFetch : Nat → Response Nat
  | 0 => { status_code := 200,
           body := some (Json.arr [entryJson "a" "t1", entryJson "b" "t2"]),
           links_next := some 1 }
  | 1 => { status_code := 200,
           body := some (Json.arr [entryJson "c" "t3"]),
           links_next := some 2 }
  | _ => { status_code := 200, body := some (Json.arr []), links_next := none }

theorem mockFetch_chain : chainGood mockFetch [0, 1] 2 := by
  refine ⟨⟨rfl, rfl, ?_, ?_, rfl⟩, ⟨rfl, rfl, ?_, ?_, rfl⟩, trivial⟩
  · exact List.cons_ne_nil _ _
  · intro item h
    rcases List.mem_cons.mp h with rfl | h2
    · exact wfEntry_entryJson "a" "t1"
    · rcases List.mem_cons.mp h2 with rfl | h3
      · exact wfEntry_entryJson "b" "t2"
      · exact absurd h3 (List.not_mem_nil _)
  · exact List.cons_ne_nil _ _
  · intro item h
    rcases List.mem_cons.mp h with rfl | h2
    · exact wfEntry_entryJson "c" "t3"
    · exact absurd h2 (List.not_mem_nil _)

/-- Witness for C6: a three-page mocked source, fuel 3, returning the three
entry pairs of the two nonempty pages in order. -/
theorem pagination_termination_witness :
    chainGood mockFetch [0, 1] 2 ∧
    get_stargazers mockFetch 3 0 [] =
      StarResult.ok [(Json.str "a", Json.str "t1"), (Json.str "b", Json.str "t2"),
        (Json.str "c", Json.str "t3")] :=
  ⟨mockFetch_chain,
    pagination_termination mockFetch [0, 1] 2 (Json.arr [])
      mockFetch_chain rfl rfl rfl 3 (by decide)⟩

/-- A mocked source: one good page, then a 404. -/
def errFetch : Nat → Response Nat
  | 0 => { status_code := 200,
           body := some (Json.arr [entryJson "a" "t1"]),
           links_next := some 1 }
  | _ => { status_code := 404,
           body := some (Json.obj [("message", Json.str "nf")]),
           links_next := none }

theorem errFetch_chain : chainGood errFetch [0] 1 := by
  refine ⟨⟨rfl, rfl, ?_, ?_, rfl⟩, trivial⟩
  · exact List.cons_ne_nil _ _
  · intro item h
    rcases List.mem_cons.mp h with rfl | h2
    · exact wfEntry_entryJson "a" "t1"
    · exact absurd h2 (List.not_mem_nil _)

/-- Witness for C8: the 404 on page two stops pagination with page one
collected. -/
theorem non200_partial_results_witness :
    chainGood errFetch [0] 1 ∧
    get_stargazers errFetch 2 0 [] = StarResult.ok [(Json.str "a", Json.str "t1")] :=
  ⟨errFetch_chain,
    non200_partial_results errFetch [0] 1 errFetch_chain (by decide) 2 (by decide)⟩

/-- Witness for C10: a 200 response with body null and a 404 response both
leave new_data unchanged. -/
theorem falsy_profile_excluded_witness :
    enrichStep (Json.str "t")
      ({ status_code := 200, body := some Json.null, links_next := none } : Response Nat)
      [] = .ok [] ∧
    enrichStep (Json.str "t")
      ({ status_code := 404, body := some Json.null, links_next := none } : Response Nat)
      [] = .ok [] :=
  falsy_profile_excluded
    { status_code := 200, body := some Json.null, links_next := none }
    { status_code := 404, body := some Json.null, links_next := none }
    (Json.str "t") [] Json.null rfl rfl rfl (by decide)
